import Mathlib

/-!
Shallow embedding of `src/index.js` of the bull-board-docker repository:
a Redis key-space scanner that discovers queue names, an adapter factory
that builds queue-client options depending on `BULL_VERSION`, a global
queue list populated by an async discovery pass, a `cleanAllQueuesHandler`
that obliterates every queue with per-queue error isolation, and the
route registrations for that handler.
-/

namespace BullBoard

/-! ### Key-space scanner (index.js lines 55-57)

The source enumerates `client.keys(`${config.BULL_PREFIX}:*`)` and maps each
key through `key.replace(/^.+?:(.+?):.+?$/, '$1')`, collects the results in a
`Set`, and sorts: `Array.from(uniqKeys).sort()`. -/

/-- Redis `KEYS ns:*` glob matching for a literal namespace `ns` (no glob
metacharacters): a key matches iff it starts with the characters of `ns`
followed by a colon; the `*` matches any (possibly empty) remainder. -/
def startsWithChars : List Char → List Char → Bool
  | [], _ => true
  | _ :: _, [] => false
  | p :: ps, c :: cs => p = c && startsWithChars ps cs

/-- Characters that Redis `KEYS` glob patterns treat specially (`*`, `?`,
the start of a character class, and the escape character). -/
def redisGlobSpecial (c : Char) : Bool :=
  c = '*' || c = '?' || c = '[' || c = '\\'

/-- Matching of one store key against the pattern `${config.BULL_PREFIX}:*`
sent to `client.keys` on line 55, for a namespace free of Redis glob
metacharacters (see `redisGlobSpecial`): the pattern is then the literal
namespace, the separator, and a trailing `*` matching any (possibly empty)
remainder. Theorems quantifying over the namespace hypothesize this
metacharacter-freedom. -/
def keyMatchesPattern (ns : String) (key : String) : Bool :=
  startsWithChars (ns ++ ":").data key.data

/-- All ways to cut a character list at a colon: every pair `(A, rest)` with
input `= A ++ ':' :: rest`, ordered by the length of `A` ascending. This
enumerates the backtracking order of a lazy `.+?:` regex piece. -/
def colonSplits : List Char → List (List Char × List Char)
  | [] => []
  | c :: cs =>
    let rest := (colonSplits cs).map (fun p => (c :: p.1, p.2))
    if c = ':' then ([], cs) :: rest else rest

/-- The characters the ECMAScript `.` atom (without the `s` flag) refuses:
the line terminators U+000A, U+000D, U+2028 and U+2029. -/
def jsDotExcluded (c : Char) : Bool :=
  c = Char.ofNat 10 || c = Char.ofNat 13 || c = Char.ofNat 0x2028 || c = Char.ofNat 0x2029

/-- A character list is acceptable for a lazy `.+?` piece of the JS regex:
non-empty, and `.` never matches a line terminator. -/
def dotPlusLazyOk (l : List Char) : Bool :=
  decide (l ≠ [] ∧ ∀ c ∈ l, jsDotExcluded c = false)

/-- The capture group of `/^.+?:(.+?):.+?$/` run on `cs`, following the JS
backtracking order: shortest first part, then shortest group, and the tail
(matched by `.+?$`) must be a non-empty newline-free remainder. `none` when
the regex does not match. -/
def regexCaptureMiddle (cs : List Char) : Option (List Char) :=
  ((colonSplits cs).filter (fun p => dotPlusLazyOk p.1)).findSome? (fun p =>
    ((colonSplits p.2).filter (fun q => dotPlusLazyOk q.1)).findSome? (fun q =>
      if dotPlusLazyOk q.2 then some q.1 else none))

/-- Embedding of `key.replace(/^.+?:(.+?):.+?$/, '$1')` (line 56): since the
regex is anchored on both sides, a match replaces the whole key by the
capture group; a non-matching key is returned unchanged. -/
def extractQueueName (key : String) : String :=
  match regexCaptureMiddle key.data with
  | some g => String.mk g
  | none => key

/-- Lexicographic comparison of character lists by code point, the order JS
`Array.prototype.sort()` uses on strings (comparison of code units; the two
agree on the ASCII queue names at hand). -/
def charListLe : List Char → List Char → Bool
  | [], _ => true
  | _ :: _, [] => false
  | a :: as, b :: bs =>
    if a.val.toNat < b.val.toNat then true
    else if b.val.toNat < a.val.toNat then false
    else charListLe as bs

/-- String comparison used by the `.sort()` call on line 57. -/
def jsStringLe (a b : String) : Bool :=
  charListLe a.data b.data

/-- The sort order of `.sort()` as a relation. -/
def jsLeRel (a b : String) : Prop :=
  jsStringLe a b = true

instance : DecidableRel jsLeRel :=
  fun a b => inferInstanceAs (Decidable (jsStringLe a b = true))

/-- Insertion into a JS `Set` keeps the first occurrence and insertion
order. -/
def setAdd (s : List String) (x : String) : List String :=
  if x ∈ s then s else s ++ [x]

/-- Embedding of `new Set(...)` followed by `Array.from` (lines 56-57):
deduplication preserving first-occurrence order. -/
def uniqInsertionOrder (l : List String) : List String :=
  l.foldl setAdd []

/-- The queue names produced by the discovery pass from the store's keys:
filter by the `BULL_PREFIX:*` pattern (the store does this inside
`client.keys`), extract the middle segment of each key, deduplicate via a
set, then `.sort()` ascending (lines 55-57). -/
def scannerQueueNames (ns : String) (storeKeys : List String) : List String :=
  List.insertionSort jsLeRel
    (uniqInsertionOrder ((storeKeys.filter (keyMatchesPattern ns)).map extractQueueName))

/-! ### Adapter factory (index.js lines 17-25, 58-68)

`redisConfig.redis` holds `{port, host, db, password?, tls}`; the map over
the sorted names builds, per queue, either BullMQ options
`{connection: redisConfig.redis, prefix?}` (when `BULL_VERSION === 'BULLMQ'`)
or Bull options `redisConfig`, i.e. the same parameters under a `redis`
key. -/

/-- The contents of `redisConfig.redis` (lines 17-25): the shared connection
parameters of the process. -/
structure RedisConnOptions where
  host : String
  port : Nat
  db : Nat
  password : Option String
  tls : Bool
deriving DecidableEq

/-- The shape of the options object handed to the queue-client constructor:
`bullOpts` is `new Queue(item, redisConfig)` with the parameters under the
`redis` key (line 67); `bullMQOpts` is `new bullmq.Queue(item, options)` with
the parameters under the `connection` key plus an optional `prefix` entry
(lines 60-64, `nsOpt` stands for the source's `options.prefix`). -/
inductive QueueClientOptions where
  | bullOpts (redis : RedisConnOptions)
  | bullMQOpts (connection : RedisConnOptions) (nsOpt : Option String)
deriving DecidableEq

/-- The options built for one discovered queue name (lines 59-67): branch on
`config.BULL_VERSION === 'BULLMQ'`; on that branch
`if (config.BULL_PREFIX) options.prefix = config.BULL_PREFIX` (an empty
string is falsy in JS); the other branch passes `redisConfig` unchanged. -/
def makeQueueOptions (bullVersion ns : String) (conn : RedisConnOptions) :
    QueueClientOptions :=
  if bullVersion = "BULLMQ" then
    .bullMQOpts conn (if ns = "" then none else some ns)
  else
    .bullOpts conn

/-- The `prefix` entry carried by an options object, if any. -/
def queueOptionsNs : QueueClientOptions → Option String
  | .bullOpts _ => none
  | .bullMQOpts _ nsOpt => nsOpt

/-- The queue list built by the discovery pass (lines 57-69): one adapter per
sorted discovered name, holding that name and its client options. -/
def buildRegistry (bullVersion ns : String) (conn : RedisConnOptions)
    (storeKeys : List String) : List (String × QueueClientOptions) :=
  (scannerQueueNames ns storeKeys).map
    (fun item => (item, makeQueueOptions bullVersion ns conn))

/-! ### Startup discovery (index.js lines 34, 52-75)

`let queueList = []` is the initial global; the async IIFE connects, scans,
rebuilds `queueList` and calls `setQueues`; its `.catch` only logs
`'Error setting up queues:'` with the error. -/

/-- The initial value of the global `queueList` (line 34). -/
def initialQueueList : List (String × QueueClientOptions) := []

/-- Outcome of the startup IIFE (lines 52-75) as a function of the key-space
enumeration outcome: on success the global queue list is replaced by the
built registry; on any failure the `.catch` records the error (the source
logs it) and the global keeps its initial value. The second component is the
logged error, `none` when nothing was logged. -/
def runStartupDiscovery (bullVersion ns : String) (conn : RedisConnOptions)
    (scan : Except String (List String)) :
    List (String × QueueClientOptions) × Option String :=
  match scan with
  | .ok storeKeys => (buildRegistry bullVersion ns conn storeKeys, none)
  | .error e => (initialQueueList, some e)

/-! ### Bulk reset handler (index.js lines 114-133)

`cleanAllQueuesHandler` iterates `queueList`; per adapter it reads
`queueAdapter.queue` and `queue.name` (outside the inner try), then calls
`await queue.obliterate({force: true})` inside an inner try that records
`{queue, status: 'success'}` or `{queue, status: 'error', error: err.message}`
and continues; the outer try answers `res.json({success: true, results})`, and
any throw outside the inner try answers
`res.status(500).json({success: false, error: err.message})`. -/

/-- One queue handle as the handler uses it: reading `queue.name` and calling
`queue.obliterate({force: true})` may each succeed or throw (the `Except`
error is the thrown error's `.message`). -/
structure BullQueueModel where
  name : Except String String
  obliterateForce : Except String Unit

/-- One entry of `queueList` as the handler uses it: reading
`queueAdapter.queue` may succeed or throw. -/
structure QueueAdapterModel where
  queue : Except String BullQueueModel

/-- One element of the `results` array (lines 123 and 125). -/
structure CleanResult where
  queue : String
  status : String
  error : Option String
deriving DecidableEq

/-- The HTTP answer of the handler: `json` is `res.json({success, results})`
(line 129), `errorJson` is `res.status(c).json({success, error})`
(line 131). -/
inductive HandlerResponse where
  | json (success : Bool) (results : List CleanResult)
  | errorJson (statusCode : Nat) (success : Bool) (error : String)
deriving DecidableEq

/-- The `for (const queueAdapter of queueList)` loop (lines 117-127) carrying
the `results` accumulated so far; a throw while reading `queueAdapter.queue`
or `queue.name` escapes to the outer catch (lines 130-132), a throw of
`obliterate` is caught by the inner catch and recorded. -/
def cleanAllLoop : List QueueAdapterModel → List CleanResult → HandlerResponse
  | [], results => .json true results
  | adapter :: rest, results =>
    match adapter.queue with
    | .error e => .errorJson 500 false e
    | .ok q =>
      match q.name with
      | .error e => .errorJson 500 false e
      | .ok queueName =>
        match q.obliterateForce with
        | .ok _ => cleanAllLoop rest (results ++ [⟨queueName, "success", none⟩])
        | .error m => cleanAllLoop rest (results ++ [⟨queueName, "error", some m⟩])

/-- Embedding of `cleanAllQueuesHandler` (lines 114-133) applied to the
current queue list. -/
def cleanAllQueuesHandler (queueList : List QueueAdapterModel) : HandlerResponse :=
  cleanAllLoop queueList []

/-- An adapter whose `queue` and `name` reads succeed, with the given queue
name and the given `obliterate({force: true})` behaviour — the shape of every
adapter that `BullAdapter`/`BullMQAdapter` actually put in the registry. -/
def mkQueueAdapter (queueName : String) (ob : Except String Unit) :
    QueueAdapterModel :=
  ⟨.ok ⟨.ok queueName, ob⟩⟩

/-- The result entry the handler records for one adapter built by
`mkQueueAdapter` from a (name, obliterate behaviour) pair. -/
def outcomeOf (p : String × Except String Unit) : CleanResult :=
  match p.2 with
  | .ok _ => ⟨p.1, "success", none⟩
  | .error m => ⟨p.1, "error", some m⟩

/-- The sequence of queue names in a handler answer, `none` for the 500
answer that carries no per-queue results. -/
def responseQueues : HandlerResponse → Option (List String)
  | .json _ rs => some (rs.map CleanResult.queue)
  | .errorJson _ _ _ => none

/-! ### Route registrations for the handler (index.js lines 140-149)

Both branches of `if (config.AUTH_ENABLED)` register
`app.post(`${config.HOME_PAGE}/api/clean-all-queues`, cleanAllQueuesHandler)`
with no `ensureLoggedIn` middleware in front of the handler, and line 149
additionally registers `app.post('/api/clean-all-queues',
cleanAllQueuesHandler)` unconditionally. -/

/-- One `app.post` registration: its path, the handler bound to it, and
whether an `ensureLoggedIn` guard stands in front of the handler. -/
structure RoutePost where
  path : String
  handlerName : String
  loginGuard : Bool
deriving DecidableEq

/-- The `app.post` registrations of the clean-all endpoint as a function of
`config.AUTH_ENABLED` and `config.HOME_PAGE` (lines 140-149). -/
def cleanAllRoutePosts (authEnabled : Bool) (homePage : String) : List RoutePost :=
  (if authEnabled then
    [⟨homePage ++ "/api/clean-all-queues", "cleanAllQueuesHandler", false⟩]
   else
    [⟨homePage ++ "/api/clean-all-queues", "cleanAllQueuesHandler", false⟩])
  ++ [⟨"/api/clean-all-queues", "cleanAllQueuesHandler", false⟩]

/-- A sample connection profile for concrete instances. -/
def sampleConn : RedisConnOptions :=
  ⟨"localhost", 6379, 0, none, false⟩

/-! ### Order properties of the sort comparator -/

theorem charListLe_total (as bs : List Char) :
    charListLe as bs = true ∨ charListLe bs as = true := by
  induction as generalizing bs with
  | nil => left; rfl
  | cons a as ih =>
    cases bs with
    | nil => right; rfl
    | cons b bs =>
      rcases Nat.lt_trichotomy a.val.toNat b.val.toNat with h | h | h
      · left; simp [charListLe, h]
      · rcases ih bs with h3 | h3
        · left; simp [charListLe, h, Nat.lt_irrefl, h3]
        · right; simp [charListLe, h, Nat.lt_irrefl, h3]
      · right; simp [charListLe, h]

theorem charListLe_trans (as bs cs : List Char) (h1 : charListLe as bs = true)
    (h2 : charListLe bs cs = true) : charListLe as cs = true := by
  induction as generalizing bs cs with
  | nil => rfl
  | cons a as ih =>
    cases bs with
    | nil => simp [charListLe] at h1
    | cons b bs =>
      cases cs with
      | nil => simp [charListLe] at h2
      | cons c cs =>
        simp only [charListLe] at h1 h2 ⊢
        rcases Nat.lt_trichotomy a.val.toNat b.val.toNat with hab | hab | hab
        · rcases Nat.lt_trichotomy b.val.toNat c.val.toNat with hbc | hbc | hbc
          · have hac : a.val.toNat < c.val.toNat := by omega
            simp [hac]
          · have hac : a.val.toNat < c.val.toNat := by omega
            simp [hac]
          · have hbc1 : ¬b.val.toNat < c.val.toNat := by omega
            simp [hbc1, hbc] at h2
        · rcases Nat.lt_trichotomy b.val.toNat c.val.toNat with hbc | hbc | hbc
          · have hac : a.val.toNat < c.val.toNat := by omega
            simp [hac]
          · have hab1 : ¬a.val.toNat < b.val.toNat := by omega
            have hab2 : ¬b.val.toNat < a.val.toNat := by omega
            have hbc1 : ¬b.val.toNat < c.val.toNat := by omega
            have hbc2 : ¬c.val.toNat < b.val.toNat := by omega
            have hac1 : ¬a.val.toNat < c.val.toNat := by omega
            have hac2 : ¬c.val.toNat < a.val.toNat := by omega
            simp [hab1, hab2] at h1
            simp [hbc1, hbc2] at h2
            simp [hac1, hac2]
            exact ih bs cs h1 h2
          · have hbc1 : ¬b.val.toNat < c.val.toNat := by omega
            simp [hbc1, hbc] at h2
        · have hab1 : ¬a.val.toNat < b.val.toNat := by omega
          simp [hab1, hab] at h1

instance : IsTotal String jsLeRel :=
  ⟨fun a b => charListLe_total a.data b.data⟩

instance : IsTrans String jsLeRel :=
  ⟨fun a b c => charListLe_trans a.data b.data c.data⟩

/-! ### Lemmas about the regex extraction -/

theorem startsWithChars_append (l m : List Char) :
    startsWithChars l (l ++ m) = true := by
  induction l with
  | nil => rfl
  | cons c cs ih => simp [startsWithChars, ih]

theorem findSome?_cons_some {α β : Type} (f : α → Option β) (a : α)
    (l : List α) (b : β) (h : f a = some b) :
    List.findSome? f (a :: l) = some b := by
  simp [List.findSome?_cons, h]

/-- On a list whose first part is colon-free, the first colon cut is at that
part, and the remaining cuts are the cuts of the remainder shifted under it. -/
theorem colonSplits_append (P R : List Char) (hP : ':' ∉ P) :
    colonSplits (P ++ ':' :: R)
      = (P, R) :: (colonSplits R).map (fun q => (P ++ ':' :: q.1, q.2)) := by
  induction P with
  | nil => simp [colonSplits]
  | cons c P ih =>
    have hc : ¬c = ':' := fun h => hP (h ▸ List.mem_cons_self c P)
    have hP' : ':' ∉ P := fun h => hP (List.mem_cons_of_mem c h)
    simp [colonSplits, hc, ih hP', List.map_map, Function.comp]

theorem dotPlusLazyOk_of (l : List Char) (h1 : l ≠ [])
    (h2 : ∀ c ∈ l, jsDotExcluded c = false) : dotPlusLazyOk l = true := by
  unfold dotPlusLazyOk
  rw [decide_eq_true_eq]
  exact ⟨h1, h2⟩

/-- The capture group of the anchored lazy regex on a canonical
`P ++ ":" ++ N ++ ":" ++ S` key (colon-free non-empty `P` and `N`, non-empty
`S`, no line terminators anywhere) is exactly `N`. -/
theorem regexCaptureMiddle_canonical (P N S : List Char)
    (hP1 : P ≠ []) (hP2 : ':' ∉ P) (hP3 : ∀ c ∈ P, jsDotExcluded c = false)
    (hN1 : N ≠ []) (hN2 : ':' ∉ N) (hN3 : ∀ c ∈ N, jsDotExcluded c = false)
    (hS1 : S ≠ []) (hS3 : ∀ c ∈ S, jsDotExcluded c = false) :
    regexCaptureMiddle (P ++ ':' :: (N ++ ':' :: S)) = some N := by
  have hPok := dotPlusLazyOk_of P hP1 hP3
  have hNok := dotPlusLazyOk_of N hN1 hN3
  have hSok := dotPlusLazyOk_of S hS1 hS3
  have hinner :
      ((colonSplits (N ++ ':' :: S)).filter (fun q => dotPlusLazyOk q.1)).findSome?
          (fun q => if dotPlusLazyOk q.2 then some q.1 else none) = some N := by
    rw [colonSplits_append N S hN2]
    rw [List.filter_cons]
    simp only [hNok, if_true]
    exact findSome?_cons_some _ _ _ _ (by simp [hSok])
  unfold regexCaptureMiddle
  rw [colonSplits_append P (N ++ ':' :: S) hP2]
  rw [List.filter_cons]
  simp only [hPok, if_true]
  exact findSome?_cons_some _ _ _ _ hinner

theorem mk_data_eq (t : String) : String.mk t.data = t := by
  cases t
  rfl

theorem data_ne_nil (t : String) (h : t ≠ "") : t.data ≠ [] := by
  intro hd
  apply h
  cases t with
  | mk d =>
    cases hd
    rfl

theorem key_data_split (ns n s : String) :
    (ns ++ ":" ++ n ++ ":" ++ s).data
      = ns.data ++ ':' :: (n.data ++ ':' :: s.data) := by
  simp [String.data_append]

/-- The middle segment a canonical key normalizes to under the source's
`key.replace(/^.+?:(.+?):.+?$/, '$1')`. -/
theorem extractQueueName_canonical (ns n s : String)
    (hns : ns ≠ "" ∧ ':' ∉ ns.data ∧ ∀ c ∈ ns.data, jsDotExcluded c = false)
    (hn : n ≠ "" ∧ ':' ∉ n.data ∧ ∀ c ∈ n.data, jsDotExcluded c = false)
    (hs : s ≠ "" ∧ ∀ c ∈ s.data, jsDotExcluded c = false) :
    extractQueueName (ns ++ ":" ++ n ++ ":" ++ s) = n := by
  unfold extractQueueName
  rw [key_data_split,
    regexCaptureMiddle_canonical ns.data n.data s.data
      (data_ne_nil ns hns.1) hns.2.1 hns.2.2
      (data_ne_nil n hn.1) hn.2.1 hn.2.2
      (data_ne_nil s hs.1) hs.2]

/-- A canonical key matches the `ns:*` pattern sent to the store. -/
theorem keyMatchesPattern_canonical (ns n s : String) :
    keyMatchesPattern ns (ns ++ ":" ++ n ++ ":" ++ s) = true := by
  unfold keyMatchesPattern
  rw [key_data_split]
  have h : (ns ++ ":").data ++ (n.data ++ ':' :: s.data)
      = ns.data ++ ':' :: (n.data ++ ':' :: s.data) := by
    simp [String.data_append]
  rw [← h]
  exact startsWithChars_append _ _

/-! ### Lemmas about the reset loop -/

/-- One loop step over an adapter whose handle reads succeed records exactly
the outcome of its obliterate call and moves on. -/
theorem cleanAllLoop_cons_mk (qn : String) (ob : Except String Unit)
    (l : List QueueAdapterModel) (acc : List CleanResult) :
    cleanAllLoop (mkQueueAdapter qn ob :: l) acc
      = cleanAllLoop l (acc ++ [outcomeOf (qn, ob)]) := by
  cases ob <;> rfl

/-- Running the loop over a block of adapters whose handle reads succeed
appends exactly one recorded outcome per adapter, in order, and continues
with the rest of the list. -/
theorem cleanAllLoop_map_mk (specs : List (String × Except String Unit))
    (l : List QueueAdapterModel) (acc : List CleanResult) :
    cleanAllLoop (specs.map (fun p => mkQueueAdapter p.1 p.2) ++ l) acc
      = cleanAllLoop l (acc ++ specs.map outcomeOf) := by
  induction specs generalizing acc with
  | nil => simp
  | cons p ps ih =>
    obtain ⟨qn, ob⟩ := p
    rw [List.map_cons, List.cons_append, cleanAllLoop_cons_mk, ih]
    simp [List.append_assoc, outcomeOf]

/-! ### Claim theorems -/

/-- C1: for every list of registry adapters — each given by its queue name
and the behaviour of its forced clear-all call — the bulk reset handler
answers success with exactly one outcome per adapter in order, recording
`{name, status: error, message}` for a throwing clear call and continuing
with the remaining queues; in particular, over a 3-queue registry where only
queue 2's clear call throws, the answer has 3 outcomes with queues 1 and 3
marked success and queue 2 marked error with the captured message. -/
theorem cleanAll_isolates_failures :
    (∀ specs : List (String × Except String Unit),
      cleanAllQueuesHandler (specs.map (fun p => mkQueueAdapter p.1 p.2))
        = .json true (specs.map outcomeOf)) ∧
    cleanAllQueuesHandler
        [mkQueueAdapter "queue1" (.ok ()), mkQueueAdapter "queue2" (.error "boom"),
         mkQueueAdapter "queue3" (.ok ())]
      = .json true
          [⟨"queue1", "success", none⟩, ⟨"queue2", "error", some "boom"⟩,
           ⟨"queue3", "success", none⟩] := by
  constructor
  · intro specs
    have h := cleanAllLoop_map_mk specs [] []
    simpa [cleanAllQueuesHandler, cleanAllLoop] using h
  · rfl

/-- C6: a bulk reset over the empty queue list succeeds with
`{success: true, results: []}` and does not error. -/
theorem cleanAll_empty_registry :
    cleanAllQueuesHandler [] = .json true [] := rfl

/-- C10: if reading some adapter's `queue` handle — or that queue's `name` —
throws, the handler aborts the batch with a 500 `{success: false, error}`
answer that carries no per-queue outcomes, discarding every outcome already
collected from the earlier adapters. -/
theorem cleanAll_handle_read_aborts :
    ∀ (specs : List (String × Except String Unit)) (e : String)
      (rest : List QueueAdapterModel) (ob : Except String Unit),
      cleanAllQueuesHandler
          (specs.map (fun p => mkQueueAdapter p.1 p.2)
            ++ QueueAdapterModel.mk (.error e) :: rest)
        = .errorJson 500 false e ∧
      cleanAllQueuesHandler
          (specs.map (fun p => mkQueueAdapter p.1 p.2)
            ++ QueueAdapterModel.mk (.ok ⟨.error e, ob⟩) :: rest)
        = .errorJson 500 false e := by
  intro specs e rest ob
  constructor
  · have h := cleanAllLoop_map_mk specs (QueueAdapterModel.mk (.error e) :: rest) []
    simpa [cleanAllQueuesHandler, cleanAllLoop] using h
  · have h := cleanAllLoop_map_mk specs
      (QueueAdapterModel.mk (.ok ⟨.error e, ob⟩) :: rest) []
    simpa [cleanAllQueuesHandler, cleanAllLoop] using h

/-- C9: for both values of `AUTH_ENABLED` the clean-all endpoint is
registered with the same handler and no login guard, and a second
registration of the same handler without the base-path is always added —
so the destructive endpoint is reachable without authentication in every
configuration. -/
theorem cleanAll_routes_unguarded :
    ∀ (authEnabled : Bool) (homePage : String),
      cleanAllRoutePosts authEnabled homePage =
        [⟨homePage ++ "/api/clean-all-queues", "cleanAllQueuesHandler", false⟩,
         ⟨"/api/clean-all-queues", "cleanAllQueuesHandler", false⟩] := by
  intro authEnabled homePage
  cases authEnabled <;> rfl

/-- C7: when the key-space enumeration fails, the startup discovery leaves
the queue list at its empty initial value and only records the error — the
failure is logged, not propagated, and the process state is the empty
registry. -/
theorem discovery_failure_empty_registry :
    ∀ (bullVersion ns : String) (conn : RedisConnOptions) (e : String),
      runStartupDiscovery bullVersion ns conn (.error e) = (initialQueueList, some e)
        ∧ initialQueueList = [] := by
  intro bullVersion ns conn e
  exact ⟨rfl, rfl⟩

/-- C8: scanning an empty key-space yields an empty queue-name set and an
empty adapter list, and the discovery pass completes without recording any
error. -/
theorem scanner_empty_keyspace :
    ∀ (bullVersion ns : String) (conn : RedisConnOptions),
      scannerQueueNames ns [] = []
        ∧ buildRegistry bullVersion ns conn [] = []
        ∧ runStartupDiscovery bullVersion ns conn (.ok []) = ([], none) := by
  intro bullVersion ns conn
  exact ⟨rfl, rfl, rfl⟩

/-- C2 counterexample: with a namespace `"bull"` configured, the legacy
(non-BULLMQ) path emits options with no namespace entry at all — the entry
is attached by the BULLMQ (nested `connection`) path — refuting that the
flat/legacy path is the one that attaches the namespace option. -/
theorem optionsNs_legacy_counterexample :
    makeQueueOptions "BULL" "bull" sampleConn = .bullOpts sampleConn ∧
    queueOptionsNs (makeQueueOptions "BULL" "bull" sampleConn) = none ∧
    queueOptionsNs (makeQueueOptions "BULLMQ" "bull" sampleConn) = some "bull" := by
  refine ⟨?_, ?_, ?_⟩ <;> decide

/-- C2 amended: the emitted client options depend only on the engine-version
selector; the BULLMQ path nests the connection parameters under `connection`
and it is this path that attaches the namespace entry when a non-empty one
is configured, while every non-BULLMQ version emits the parameters under the
`redis` key with no namespace entry. -/
theorem makeQueueOptions_shapes (ns : String) (conn : RedisConnOptions) :
    makeQueueOptions "BULLMQ" ns conn
        = .bullMQOpts conn (if ns = "" then none else some ns) ∧
    ∀ v : String, v ≠ "BULLMQ" → makeQueueOptions v ns conn = .bullOpts conn := by
  constructor
  · simp [makeQueueOptions]
  · intro v hv
    simp [makeQueueOptions, hv]

/-- C3 counterexample: the key `bull:a\rb:1` is of the claimed
`<prefix>:<name>:<suffix>` form with middle segment `a\rb`, but the JS
regex's `.` refuses the carriage return, so the program passes the key
through whole and the scanner does not return the set of middle segments. -/
theorem scanner_lineterm_counterexample :
    "bull" ++ ":" ++ "a\rb" ++ ":" ++ "1" = "bull:a\rb:1" ∧
    scannerQueueNames "bull" ["bull:a\rb:1"] = ["bull:a\rb:1"] ∧
    ¬scannerQueueNames "bull" ["bull:a\rb:1"] = ["a\rb"] := by
  decide

/-- C3 amended: over any store whose matching keys are canonical
`<ns>:<name>:<suffix>` keys with names non-empty, colon-free and free of JS
line terminators, and suffixes non-empty and line-terminator-free — keys
with a line terminator in a segment are instead passed through whole — the
scanner returns exactly the deduplicated sorted set of middle segments, and
any further keys not matching the anchored `ns:*` pattern (the namespace
being free of glob metacharacters, so the pattern is literal) are not
merged in; in particular `{bull:A:1, bull:A:2, bull:B:1}` yields exactly
`{A, B}`. -/
theorem scanner_distinct_middle_segments
    (ns : String) (pairs : List (String × String)) (extras : List String)
    (hns : ns ≠ "" ∧ ':' ∉ ns.data ∧ ∀ c ∈ ns.data, jsDotExcluded c = false)
    (hglob : ∀ c ∈ ns.data, redisGlobSpecial c = false)
    (hpairs : ∀ p ∈ pairs, p.1 ≠ "" ∧ ':' ∉ p.1.data
        ∧ (∀ c ∈ p.1.data, jsDotExcluded c = false)
        ∧ p.2 ≠ "" ∧ (∀ c ∈ p.2.data, jsDotExcluded c = false))
    (hextras : ∀ k ∈ extras, keyMatchesPattern ns k = false) :
    scannerQueueNames ns
        (extras ++ pairs.map (fun p => ns ++ ":" ++ p.1 ++ ":" ++ p.2))
      = List.insertionSort jsLeRel (uniqInsertionOrder (pairs.map Prod.fst)) ∧
    scannerQueueNames "bull" ["bull:A:1", "bull:A:2", "bull:B:1"] = ["A", "B"] := by
  constructor
  · unfold scannerQueueNames
    have hfilter :
        (extras ++ pairs.map (fun p => ns ++ ":" ++ p.1 ++ ":" ++ p.2)).filter
            (keyMatchesPattern ns)
          = pairs.map (fun p => ns ++ ":" ++ p.1 ++ ":" ++ p.2) := by
      rw [List.filter_append]
      have h1 : extras.filter (keyMatchesPattern ns) = [] := by
        rw [List.filter_eq_nil_iff]
        intro k hk
        simp [hextras k hk]
      have h2 : (pairs.map (fun p => ns ++ ":" ++ p.1 ++ ":" ++ p.2)).filter
            (keyMatchesPattern ns)
          = pairs.map (fun p => ns ++ ":" ++ p.1 ++ ":" ++ p.2) := by
        rw [List.filter_eq_self]
        intro k hk
        obtain ⟨p, hp, rfl⟩ := List.mem_map.mp hk
        exact keyMatchesPattern_canonical ns p.1 p.2
      rw [h1, h2, List.nil_append]
    rw [hfilter, List.map_map]
    have hmap : pairs.map (extractQueueName ∘ fun p => ns ++ ":" ++ p.1 ++ ":" ++ p.2)
        = pairs.map Prod.fst := by
      apply List.map_congr_left
      intro p hp
      obtain ⟨h1, h2, h3, h4, h5⟩ := hpairs p hp
      exact extractQueueName_canonical ns p.1 p.2 hns ⟨h1, h2, h3⟩ ⟨h4, h5⟩
    rw [hmap]
  · decide

/-- Witness for `scanner_distinct_middle_segments`: namespace `bull`, keys
for queues `A`, `A`, `B` plus a key of the unrelated `bullish` namespace. -/
theorem scanner_distinct_middle_segments_witness :
    scannerQueueNames "bull"
        (["bullish:X:9"] ++ [("A", "1"), ("A", "2"), ("B", "1")].map
            (fun p => "bull" ++ ":" ++ p.1 ++ ":" ++ p.2))
      = List.insertionSort jsLeRel
          (uniqInsertionOrder ([("A", "1"), ("A", "2"), ("B", "1")].map Prod.fst)) :=
  (scanner_distinct_middle_segments "bull" [("A", "1"), ("A", "2"), ("B", "1")]
      ["bullish:X:9"] (by decide) (by decide) (by decide) (by decide)).1

/-- C4 counterexample: the two-segment key `bull:x` is returned by the
`bull:*` scan, the regex does not match it, and the scanner then uses the
whole key — a queue name that still contains the namespace separator; the
same happens for the three-segment key `bull:a\rb:1`, whose carriage return
the regex's `.` refuses. The invariant fails on the code for such keys. -/
theorem extract_artifact_counterexample :
    (keyMatchesPattern "bull" "bull:x" = true ∧
     extractQueueName "bull:x" = "bull:x" ∧
     ':' ∈ (extractQueueName "bull:x").data ∧
     scannerQueueNames "bull" ["bull:x"] = ["bull:x"]) ∧
    (extractQueueName "bull:a\rb:1" = "bull:a\rb:1" ∧
     ':' ∈ (extractQueueName "bull:a\rb:1").data) := by
  decide

/-- C4 amended: for every scanned key of the canonical
`<ns>:<name>:<suffix>` shape (non-empty, colon-free namespace and name,
non-empty suffix, all three free of JS line terminators), the extracted
queue name is exactly the middle segment — non-empty, free of separator
artifacts, and the same on every scan since extraction is a function of the
key; a key with fewer segments, or with a line terminator in a segment, is
instead passed through whole. -/
theorem extract_wellformed_name (ns n s : String)
    (hns : ns ≠ "" ∧ ':' ∉ ns.data ∧ ∀ c ∈ ns.data, jsDotExcluded c = false)
    (hn : n ≠ "" ∧ ':' ∉ n.data ∧ ∀ c ∈ n.data, jsDotExcluded c = false)
    (hs : s ≠ "" ∧ ∀ c ∈ s.data, jsDotExcluded c = false) :
    extractQueueName (ns ++ ":" ++ n ++ ":" ++ s) = n ∧
    extractQueueName (ns ++ ":" ++ n ++ ":" ++ s) ≠ "" ∧
    ':' ∉ (extractQueueName (ns ++ ":" ++ n ++ ":" ++ s)).data := by
  have h := extractQueueName_canonical ns n s hns hn hs
  refine ⟨h, ?_, ?_⟩
  · rw [h]
    exact hn.1
  · rw [h]
    exact hn.2.1

/-- Witness for `extract_wellformed_name` at the key `bull:A:1`. -/
theorem extract_wellformed_name_witness :
    extractQueueName ("bull" ++ ":" ++ "A" ++ ":" ++ "1") = "A" ∧
    extractQueueName ("bull" ++ ":" ++ "A" ++ ":" ++ "1") ≠ "" ∧
    ':' ∉ (extractQueueName ("bull" ++ ":" ++ "A" ++ ":" ++ "1")).data :=
  extract_wellformed_name "bull" "A" "1" (by decide) (by decide) (by decide)

/-- The queue name recorded in the outcome of one adapter is that adapter's
queue name. -/
theorem outcomeOf_queue (p : String × Except String Unit) :
    (outcomeOf p).queue = p.1 := by
  cases hp : p.2 <;> simp [outcomeOf, hp]

/-- C5: the discovered registry is sorted ascending by queue name, and a
bulk reset over registry adapters (whatever each queue's clear call does)
reports its per-queue outcomes in exactly the registry's order. -/
theorem registry_sorted_reset_order :
    ∀ (bullVersion ns : String) (conn : RedisConnOptions)
      (storeKeys : List String) (ob : String → Except String Unit),
      List.Sorted jsLeRel
          ((buildRegistry bullVersion ns conn storeKeys).map Prod.fst) ∧
      responseQueues (cleanAllQueuesHandler
          ((buildRegistry bullVersion ns conn storeKeys).map
            (fun p => mkQueueAdapter p.1 (ob p.1))))
        = some ((buildRegistry bullVersion ns conn storeKeys).map Prod.fst) := by
  intro bullVersion ns conn storeKeys ob
  constructor
  · unfold buildRegistry
    rw [List.map_map]
    have hid : List.map (Prod.fst ∘ fun item : String =>
          (item, makeQueueOptions bullVersion ns conn))
        (scannerQueueNames ns storeKeys) = scannerQueueNames ns storeKeys :=
      List.map_id _
    rw [hid]
    unfold scannerQueueNames
    exact List.sorted_insertionSort jsLeRel _
  · have key : (buildRegistry bullVersion ns conn storeKeys).map
          (fun p => mkQueueAdapter p.1 (ob p.1))
        = ((buildRegistry bullVersion ns conn storeKeys).map
            (fun p => (p.1, ob p.1))).map (fun q => mkQueueAdapter q.1 q.2) := by
      rw [List.map_map]
      rfl
    rw [key]
    have h := cleanAllLoop_map_mk
      ((buildRegistry bullVersion ns conn storeKeys).map (fun p => (p.1, ob p.1))) [] []
    rw [List.append_nil] at h
    unfold cleanAllQueuesHandler
    rw [h]
    simp only [cleanAllLoop, List.nil_append, responseQueues]
    rw [List.map_map, List.map_map]
    congr 1
    apply List.map_congr_left
    intro p hp
    exact outcomeOf_queue (p.1, ob p.1)

/-- Witness for `makeQueueOptions_shapes` at `ns = "bull"`, `v = "BULL"`. -/
theorem makeQueueOptions_shapes_witness :
    makeQueueOptions "BULLMQ" "bull" sampleConn
        = .bullMQOpts sampleConn (if "bull" = "" then none else some "bull") ∧
    makeQueueOptions "BULL" "bull" sampleConn = .bullOpts sampleConn :=
  ⟨(makeQueueOptions_shapes "bull" sampleConn).1,
   (makeQueueOptions_shapes "bull" sampleConn).2 "BULL" (by decide)⟩

end BullBoard
